import Mathlib

/-!
Shallow embedding of `src/lsstseries/timeseries.py` (class `timeseries`):
the Stetson robust mean `_stetson_mean`, the single-band Stetson J
statistic `stetson_J`, the band aggregator `stetson_J_multi`, and the
column accessors `flux` / `flux_err`.

Numeric model: numpy float arithmetic is modelled by exact real
arithmetic (`ℝ`).  Python exceptions are modelled by `Except PyErr`.
The two places where the Python code can raise on the numeric path are
embedded explicitly:
  * `n_points / (n_points - 1)` is Python integer true division, which
    raises `ZeroDivisionError` when `n_points = 1`;
  * `np.average(values, weights=w)` raises `ZeroDivisionError`
    ("Weights sum to zero") when the weights sum to zero.
Element-wise numpy float division never raises (it yields inf/nan
silently); inputs where such a non-finite value would arise (an error
value of exactly 0) are outside the exact-real model, and every theorem
below that needs finite weights carries the corresponding hypothesis.
-/

/-- Errors of the embedded program.  `zeroDivision` is Python's built-in
`ZeroDivisionError`; `keyError` is the `KeyError` raised by a pandas
column lookup.  The constructors `invalidInputSize` and
`invalidUncertainty` are the error taxonomy of the specification; they
are declared so that claims about them can be stated, but no function of
the embedded source ever produces them. -/
inductive PyErr where
  | zeroDivision
  | keyError (key : String)
  | invalidInputSize
  | invalidUncertainty
  deriving DecidableEq

open Classical in
/-- `np.average(values, weights)`: the weighted average
`(Σ w·v) / Σ w`.  numpy raises `ZeroDivisionError` ("Weights sum to
zero, can't be normalized") when the weights sum to zero. -/
noncomputable def npAverage (values weights : List ℝ) : Except PyErr ℝ :=
  if weights.sum = 0 then .error .zeroDivision
  else .ok ((List.zipWith (fun w v => w * v) weights values).sum / weights.sum)

/-- `np.mean(l)`: the arithmetic mean.  (Only reached on nonempty lists
in the embedded code.) -/
noncomputable def npMean (l : List ℝ) : ℝ := l.sum / l.length

/-- `inv_var = 1 / errors**2`, per element. -/
noncomputable def inv_var_of (e : ℝ) : ℝ := 1 / e ^ 2

/-- `chi = np.fabs(n_factor * (values - mean) / errors)`, per element. -/
noncomputable def chi_of (n_factor mean v e : ℝ) : ℝ := |n_factor * (v - mean) / e|

/-- The per-element reweighting factor
`inv_var / (1 + (chi / alpha) ** beta)` used as the weight of
`np.average` inside the clipping loop.  (`inv_var` is computed once
outside the loop in the source; element-wise it is `inv_var_of e`.)
`**` on floats is real exponentiation, embedded as `Real.rpow`. -/
noncomputable def weight_of (n_factor alpha beta mean v e : ℝ) : ℝ :=
  inv_var_of e / (1 + (chi_of n_factor mean v e / alpha) ^ beta)

/-- One reweighting pass: `tmp_mean = np.average(values, weights=inv_var
/ (1 + (chi/alpha)**beta))` for the current `mean`. -/
noncomputable def stetsonStep (values errors : List ℝ) (n_factor alpha beta mean : ℝ) :
    Except PyErr ℝ :=
  npAverage values (List.zipWith (fun v e => weight_of n_factor alpha beta mean v e) values errors)

/-- The early-termination test `diff / mean < tol and diff < tol`,
evaluated after `mean = tmp_mean`.  In IEEE arithmetic, when `mean` is
exactly 0 the quotient `diff / mean` is `+inf` (for `diff > 0`) or `NaN`
(for `diff = 0`), and either way the comparison `< tol` is false, so the
break never fires; the `mean ≠ 0` conjunct encodes exactly that emergent
behaviour in the exact-real model. -/
def converged (diff mean tol : ℝ) : Prop :=
  mean ≠ 0 ∧ diff / mean < tol ∧ diff < tol

open Classical in
/-- The clipping loop `for iter_idx in range(n_iter): ...` of
`_stetson_mean`, with the current `mean` as loop state and the remaining
iteration budget as fuel.  Besides the final mean it returns the number
of reweighting passes actually performed (an annotation used only to
state the iteration bound; `_stetson_mean` projects it away). -/
noncomputable def stetsonLoop (values errors : List ℝ) (n_factor alpha beta tol : ℝ) :
    ℝ → ℕ → Except PyErr (ℝ × ℕ)
  | mean, 0 => .ok (mean, 0)
  | mean, fuel + 1 =>
    match stetsonStep values errors n_factor alpha beta mean with
    | .error e => .error e
    | .ok tmp_mean =>
      let diff := |tmp_mean - mean|
      if converged diff tmp_mean tol then .ok (tmp_mean, 1)
      else (stetsonLoop values errors n_factor alpha beta tol tmp_mean fuel).map
        (fun p => (p.1, p.2 + 1))

/-- `_stetson_mean(values, errors, mean, alpha, beta, n_iter, tol)`.
Source defaults: `mean=None, alpha=2., beta=2., n_iter=20, tol=1e-6`;
call sites below pass them explicitly.  `n_points / (n_points - 1)` is
Python integer true division: for `n_points = 1` it raises
`ZeroDivisionError` (for `n_points = 0` it yields `-0.0` and the
subsequent `np.average` over empty arrays raises instead). -/
noncomputable def _stetson_mean (values errors : List ℝ) (mean : Option ℝ)
    (alpha beta : ℝ) (n_iter : ℕ) (tol : ℝ) : Except PyErr ℝ :=
  let n_points := values.length
  if n_points = 1 then .error .zeroDivision
  else
    let n_factor := Real.sqrt ((n_points : ℝ) / ((n_points : ℝ) - 1))
    match (match mean with
           | some m => Except.ok m
           | none => npAverage values (errors.map inv_var_of)) with
    | .error e => .error e
    | .ok mean0 =>
      (stetsonLoop values errors n_factor alpha beta tol mean0 n_iter).map Prod.fst

/-- `stetson_J(fluxes, errors)`: robust mean, then
`delta_val = sqrt(n/(n-1)) * (fluxes - flux_mean) / errors`,
`p_k = delta_val**2 - 1`, and the result
`np.mean(np.sign(p_k) * np.sqrt(np.fabs(p_k)))`.
The inner guard models the Python integer division
`n_points / (n_points - 1)` in `delta_val`; it is unreachable because
`_stetson_mean` has already raised for `n_points = 1`. -/
noncomputable def stetson_J (fluxes errors : List ℝ) : Except PyErr ℝ :=
  let n_points := fluxes.length
  match _stetson_mean fluxes errors none 2 2 20 (1e-6) with
  | .error e => .error e
  | .ok flux_mean =>
    if n_points = 1 then .error .zeroDivision
    else
      let delta_val := List.zipWith
        (fun f e => Real.sqrt ((n_points : ℝ) / ((n_points : ℝ) - 1)) * (f - flux_mean) / e)
        fluxes errors
      let p_k := delta_val.map (fun d => d ^ 2 - 1)
      .ok (npMean (p_k.map (fun p => Real.sign p * Real.sqrt |p|)))

/-- One row of the dataframe built by the ingestion layer: its band
label (the first component of the pandas multi-index) and its named
numeric columns. -/
structure TSRow where
  band : String
  cols : List (String × ℝ)

/-- The `timeseries` object: `self.data` (the dataframe, as a list of
rows), `self.meta = {'id': ...}` and the column mapping
`self.colmap = {'time': ..., 'flux': ..., 'flux_err': ...}`. -/
structure timeseries where
  data : List TSRow
  meta_id : Option String
  colmap_time : Option String
  colmap_flux : Option String
  colmap_flux_err : Option String

/-- Selecting a named column from a set of rows
(`dataframe[col].values`).  pandas raises `KeyError` when the column is
absent. -/
def colValues (rows : List TSRow) (col : String) : Except PyErr (List ℝ) :=
  rows.mapM (fun r =>
    match r.cols.lookup col with
    | some x => Except.ok x
    | none => Except.error (.keyError col))

/-- The `flux` property: `self.data[self.colmap['flux']]`.
(`self.data[None]` raises `KeyError` in pandas.) -/
def timeseries.flux (self : timeseries) : Except PyErr (List ℝ) :=
  match self.colmap_flux with
  | some c => colValues self.data c
  | none => .error (.keyError "None")

/-- The `flux_err` property: `self.data[self.colmap['flux_err']]` when a
flux-error column is mapped, `None` otherwise. -/
def timeseries.flux_err (self : timeseries) : Except PyErr (Option (List ℝ)) :=
  match self.colmap_flux_err with
  | some c => (colValues self.data c).map some
  | none => .ok none

/-- `np.unique(self.band)`: the distinct band labels, sorted
ascending. -/
def unqBand (self : timeseries) : List String :=
  List.insertionSort (· ≤ ·) ((self.data.map TSRow.band).dedup)

/-- `stetson_J_multi(self)`: iterate over `np.unique(self.band)` and,
for each band, read the columns named literally `"psFlux"` and
`"psFluxErr"` of the rows of that band (`self.data.loc[band]`), then
apply `stetson_J`.  The Python result dict preserves insertion order, so
it is modelled as an association list in that order. -/
noncomputable def stetson_J_multi (self : timeseries) : Except PyErr (List (String × ℝ)) :=
  (unqBand self).mapM (fun band =>
    match colValues (self.data.filter (fun r => r.band == band)) "psFlux" with
    | .error e => .error e
    | .ok fluxes =>
      match colValues (self.data.filter (fun r => r.band == band)) "psFluxErr" with
      | .error e => .error e
      | .ok errors =>
        match stetson_J fluxes errors with
        | .error e => .error e
        | .ok j => .ok (band, j))

/-- State-threaded form of the method call
`self._stetson_mean(values, errors, ...)`: the body reads no attribute
of `self` and performs no attribute assignment, so the object is
returned unchanged alongside the value. -/
noncomputable def _stetson_mean_m (self : timeseries) (values errors : List ℝ)
    (mean : Option ℝ) (alpha beta : ℝ) (n_iter : ℕ) (tol : ℝ) :
    timeseries × Except PyErr ℝ :=
  (self, _stetson_mean values errors mean alpha beta n_iter tol)

/-- State-threaded form of the method call
`self.stetson_J(fluxes, errors)`: the body touches no attribute of
`self` (it only forwards to `self._stetson_mean`), so the object is
returned unchanged alongside the value. -/
noncomputable def stetson_J_m (self : timeseries) (fluxes errors : List ℝ) :
    timeseries × Except PyErr ℝ :=
  (self, stetson_J fluxes errors)

/-! ### Helper lemmas -/

/-- `zipWith` over the two projections of a list of pairs is a `map`
over the pairs. -/
theorem zipWith_map_pair {γ : Type} (f : ℝ → ℝ → γ) (l : List (ℝ × ℝ)) :
    List.zipWith f (l.map Prod.fst) (l.map Prod.snd) = l.map (fun p => f p.1 p.2) := by
  induction l with
  | nil => rfl
  | cons p t ih => simp [ih]

/-- `_stetson_mean` on a 1-element input raises `ZeroDivisionError` at
`n_points / (n_points - 1)`. -/
theorem stetson_mean_singleton (v e : ℝ) (mean : Option ℝ) (alpha beta : ℝ)
    (n_iter : ℕ) (tol : ℝ) :
    _stetson_mean [v] [e] mean alpha beta n_iter tol = .error .zeroDivision := by
  simp [_stetson_mean]

/-- Claim C1, counterexample: on the 1-observation input
`fluxes=[10], errors=[1]` neither `_stetson_mean` nor `stetson_J`
produces the `InvalidInputSize` error the claim requires (both raise
Python's `ZeroDivisionError` instead). -/
theorem C1_counterexample :
    _stetson_mean [(10 : ℝ)] [1] none 2 2 20 (1e-6) ≠ .error .invalidInputSize ∧
    stetson_J [(10 : ℝ)] [1] ≠ .error .invalidInputSize := by
  constructor
  · rw [stetson_mean_singleton]; simp
  · rw [stetson_J, stetson_mean_singleton]; simp

/-- Claim C1, amended: for any input of fewer than 2 observations, both
`_stetson_mean` and `stetson_J` raise, but the error is Python's
built-in `ZeroDivisionError` (from `n_points / (n_points - 1)` when
`N = 1`, and from `np.average` over empty zero-sum weights when
`N = 0`), not an explicit `InvalidInputSize`; neither function performs
explicit input-size validation, and neither silently returns NaN. -/
theorem C1_small_input_zero_division (fluxes errors : List ℝ)
    (hlen : errors.length = fluxes.length) (hN : fluxes.length < 2) :
    _stetson_mean fluxes errors none 2 2 20 (1e-6) = .error .zeroDivision ∧
    stetson_J fluxes errors = .error .zeroDivision := by
  interval_cases h : fluxes.length
  · have hf : fluxes = [] := List.length_eq_zero.mp h
    have he : errors = [] := List.length_eq_zero.mp hlen
    subst hf he
    have hm : _stetson_mean [] [] none 2 2 20 (1e-6) = .error .zeroDivision := by
      simp [_stetson_mean, npAverage]
    exact ⟨hm, by rw [stetson_J, hm]⟩
  · obtain ⟨v, hv⟩ := List.length_eq_one.mp h
    obtain ⟨e, he⟩ := List.length_eq_one.mp hlen
    subst hv he
    have hm := stetson_mean_singleton v e none 2 2 20 (1e-6)
    exact ⟨hm, by rw [stetson_J, hm]⟩

/-- Witness for `C1_small_input_zero_division` at `fluxes=[10]`,
`errors=[1]`. -/
theorem C1_small_input_zero_division_witness :
    _stetson_mean [(10 : ℝ)] [1] none 2 2 20 (1e-6) = .error .zeroDivision ∧
    stetson_J [(10 : ℝ)] [1] = .error .zeroDivision :=
  C1_small_input_zero_division [(10 : ℝ)] [1] (by simp) (by simp)

/-- On the input `values=[5,5]`, `errors=[-1,1]` the initial
inverse-variance average is 5. -/
theorem init_mean_55 : npAverage [(5 : ℝ), 5] ([(-1 : ℝ), 1].map inv_var_of) = .ok 5 := by
  rw [npAverage]
  rw [if_neg (by norm_num [inv_var_of])]
  norm_num [inv_var_of]

/-- On `values=[5,5]`, `errors=[-1,1]`, at the fixed mean 5, one
reweighting pass returns 5 again (for any `n_factor`). -/
theorem step_55 (nf : ℝ) : stetsonStep [(5 : ℝ), 5] [-1, 1] nf 2 2 5 = .ok 5 := by
  have hw : ∀ e : ℝ, e = -1 ∨ e = 1 → weight_of nf 2 2 5 5 e = 1 := by
    rintro e (rfl | rfl) <;>
      · rw [weight_of, chi_of, inv_var_of]
        norm_num
  rw [stetsonStep]
  simp only [List.zipWith]
  rw [hw (-1) (Or.inl rfl), hw 1 (Or.inr rfl)]
  rw [npAverage, if_neg (by norm_num)]
  norm_num

/-- Unfolding lemma: the loop with no remaining budget returns the
current mean with 0 passes. -/
theorem stetsonLoop_zero (values errors : List ℝ) (nf alpha beta tol mean : ℝ) :
    stetsonLoop values errors nf alpha beta tol mean 0 = .ok (mean, 0) := rfl

open Classical in
/-- Unfolding lemma: one iteration of the clipping loop. -/
theorem stetsonLoop_succ (values errors : List ℝ) (nf alpha beta tol mean : ℝ) (fuel : ℕ) :
    stetsonLoop values errors nf alpha beta tol mean (fuel + 1) =
      match stetsonStep values errors nf alpha beta mean with
      | .error e => .error e
      | .ok tmp_mean =>
        if converged |tmp_mean - mean| tmp_mean tol then .ok (tmp_mean, 1)
        else (stetsonLoop values errors nf alpha beta tol tmp_mean fuel).map
          (fun p => (p.1, p.2 + 1)) := by
  rw [stetsonLoop.eq_def]

open Classical in
/-- Unfolding lemma: one iteration of the clipping loop, when the
reweighting pass succeeds. -/
theorem stetsonLoop_succ_ok (values errors : List ℝ) (nf alpha beta tol mean tmp_mean : ℝ)
    (fuel : ℕ) (h : stetsonStep values errors nf alpha beta mean = .ok tmp_mean) :
    stetsonLoop values errors nf alpha beta tol mean (fuel + 1) =
      if converged |tmp_mean - mean| tmp_mean tol then .ok (tmp_mean, 1)
      else (stetsonLoop values errors nf alpha beta tol tmp_mean fuel).map
        (fun p => (p.1, p.2 + 1)) := by
  rw [stetsonLoop_succ, h]

/-- Full run of `_stetson_mean` on `values=[5,5]`, `errors=[-1,1]`
(one negative uncertainty): it converges on the first pass and returns
the ordinary value 5. -/
theorem stetson_mean_55 :
    _stetson_mean [(5 : ℝ), 5] [-1, 1] none 2 2 20 (1e-6) = .ok 5 := by
  rw [_stetson_mean]
  simp only [List.length_cons, List.length_nil, init_mean_55]
  rw [if_neg (by norm_num)]
  rw [(by norm_num : (20 : ℕ) = 19 + 1), stetsonLoop_succ_ok _ _ _ _ _ _ _ _ _ (step_55 _)]
  have hc : converged |(5 : ℝ) - 5| 5 (1e-6) := by
    rw [converged]; exact ⟨by norm_num, by norm_num, by norm_num⟩
  rw [if_pos hc]
  rfl

/-- Full run of `stetson_J` on `fluxes=[5,5]`, `errors=[-1,1]` (one
negative uncertainty): it returns the ordinary value −1. -/
theorem stetson_J_55 : stetson_J [(5 : ℝ), 5] [-1, 1] = .ok (-1) := by
  rw [stetson_J]
  simp only [stetson_mean_55, List.length_cons, List.length_nil]
  rw [if_neg (by norm_num)]
  norm_num [npMean, Real.sign_of_neg]

/-- Claim C2, counterexample: the input `fluxes=[5,5]`,
`errors=[-1,1]` contains the non-positive error value −1, yet neither
`_stetson_mean` nor `stetson_J` raises `InvalidUncertainty`. -/
theorem C2_counterexample :
    ((-1 : ℝ) ∈ [(-1 : ℝ), 1] ∧ (-1 : ℝ) ≤ 0) ∧
    _stetson_mean [(5 : ℝ), 5] [-1, 1] none 2 2 20 (1e-6) ≠ .error .invalidUncertainty ∧
    stetson_J [(5 : ℝ), 5] [-1, 1] ≠ .error .invalidUncertainty := by
  refine ⟨⟨by simp, by norm_num⟩, ?_, ?_⟩
  · rw [stetson_mean_55]; simp
  · rw [stetson_J_55]; simp

/-- Claim C2, amended: neither `_stetson_mean` nor `stetson_J` performs
any validation of the uncertainties.  A strictly negative error value is
accepted silently (it enters only through its square in the weights and
through an absolute value), and the call returns an ordinary finite
result: on `fluxes=[5,5]`, `errors=[-1,1]` the robust mean is 5 and
Stetson J is −1.  (An error value of exactly 0 yields IEEE-infinite
weights, likewise without any `InvalidUncertainty` being raised.) -/
theorem C2_no_uncertainty_validation :
    _stetson_mean [(5 : ℝ), 5] [-1, 1] none 2 2 20 (1e-6) = .ok 5 ∧
    stetson_J [(5 : ℝ), 5] [-1, 1] = .ok (-1) :=
  ⟨stetson_mean_55, stetson_J_55⟩

/-- Weighted average of `n` copies of `v` with `n` equal nonzero
weights is `v`. -/
theorem npAverage_replicate (n : ℕ) (v w : ℝ) (hn : n ≠ 0) (hw : w ≠ 0) :
    npAverage (List.replicate n v) (List.replicate n w) = .ok v := by
  rw [npAverage]
  have hsum : (List.replicate n w).sum = n * w := by
    simp [List.sum_replicate, nsmul_eq_mul]
  have hne : (List.replicate n w).sum ≠ 0 := by
    rw [hsum]
    exact mul_ne_zero (Nat.cast_ne_zero.mpr hn) hw
  rw [if_neg hne]
  rw [List.zipWith_replicate', hsum]
  have : (List.replicate n (w * v)).sum = n * (w * v) := by
    simp [List.sum_replicate, nsmul_eq_mul]
  rw [this]
  congr 1
  field_simp
  ring

/-- At the fixed point `mean = v`, a reweighting pass on constant values
`v` leaves the mean unchanged (default `alpha = beta = 2`). -/
theorem stetsonStep_replicate (n : ℕ) (v e nf : ℝ) (hn : n ≠ 0) (he : e ≠ 0) :
    stetsonStep (List.replicate n v) (List.replicate n e) nf 2 2 v = .ok v := by
  rw [stetsonStep, List.zipWith_replicate']
  have hw : weight_of nf 2 2 v v e = inv_var_of e := by
    rw [weight_of, chi_of]
    norm_num
  rw [hw]
  exact npAverage_replicate n v _ hn (by rw [inv_var_of]; positivity)

/-- If one reweighting pass maps `mean` back to itself, the loop
returns `mean` no matter the budget. -/
theorem stetsonLoop_fixpoint (values errors : List ℝ) (nf alpha beta tol mean : ℝ)
    (fuel : ℕ) (h : stetsonStep values errors nf alpha beta mean = .ok mean) :
    ∃ c, stetsonLoop values errors nf alpha beta tol mean fuel = .ok (mean, c) := by
  induction fuel with
  | zero => exact ⟨0, stetsonLoop_zero _ _ _ _ _ _ _⟩
  | succ fuel ih =>
    rw [stetsonLoop_succ_ok _ _ _ _ _ _ _ _ _ h]
    by_cases hc : converged |mean - mean| mean tol
    · exact ⟨1, by rw [if_pos hc]⟩
    · obtain ⟨c, hcl⟩ := ih
      exact ⟨c + 1, by rw [if_neg hc, hcl]; rfl⟩

/-- Claim C4: on any `N ≥ 2` identical flux values with equal strictly
positive uncertainties, `_stetson_mean` returns exactly the common value
and `stetson_J` returns exactly −1 (every `delta` is 0, every
`p_k = −1`, every contribution is `sign(−1)·√1 = −1`). -/
theorem C4_constant_input (n : ℕ) (v e : ℝ) (hn : 2 ≤ n) (he : 0 < e) :
    _stetson_mean (List.replicate n v) (List.replicate n e) none 2 2 20 (1e-6) = .ok v ∧
    stetson_J (List.replicate n v) (List.replicate n e) = .ok (-1) := by
  have hn0 : n ≠ 0 := by omega
  have hn1 : n ≠ 1 := by omega
  have he0 : e ≠ 0 := ne_of_gt he
  have hmean : _stetson_mean (List.replicate n v) (List.replicate n e)
      none 2 2 20 (1e-6) = .ok v := by
    rw [_stetson_mean]
    simp only [List.length_replicate]
    rw [if_neg hn1]
    rw [List.map_replicate]
    simp only [npAverage_replicate n v (inv_var_of e) hn0 (by rw [inv_var_of]; positivity)]
    obtain ⟨c, hcl⟩ := stetsonLoop_fixpoint (List.replicate n v) (List.replicate n e)
      (Real.sqrt ((n : ℝ) / ((n : ℝ) - 1))) 2 2 (1e-6) v 20
      (stetsonStep_replicate n v e _ hn0 he0)
    rw [hcl]
    rfl
  refine ⟨hmean, ?_⟩
  rw [stetson_J]
  simp only [List.length_replicate, hmean]
  rw [if_neg hn1]
  rw [List.zipWith_replicate']
  have hd : Real.sqrt ((n : ℝ) / ((n : ℝ) - 1)) * (v - v) / e = 0 := by
    rw [sub_self, mul_zero, zero_div]
  rw [hd]
  simp only [List.map_replicate]
  norm_num
  rw [Real.sign_of_neg (by norm_num : (-1 : ℝ) < 0)]
  rw [npMean]
  simp only [List.sum_replicate, List.length_replicate, nsmul_eq_mul]
  rw [mul_neg, mul_one]
  field_simp

/-- Witness for `C4_constant_input` at the spec's example
`fluxes=[10,10,10,10]`, `errors=[1,1,1,1]`. -/
theorem C4_constant_input_witness :
    _stetson_mean (List.replicate 4 (10 : ℝ)) (List.replicate 4 1) none 2 2 20 (1e-6)
        = .ok 10 ∧
    stetson_J (List.replicate 4 (10 : ℝ)) (List.replicate 4 1) = .ok (-1) :=
  C4_constant_input 4 10 1 (by norm_num) (by norm_num)

/-- The reweighting factor is nonnegative whenever `alpha > 0` (the
`chi/alpha` base of the power is nonnegative, so the denominator is at
least 1). -/
theorem weight_of_nonneg (nf alpha beta mean v e : ℝ) (ha : 0 < alpha) :
    0 ≤ weight_of nf alpha beta mean v e := by
  rw [weight_of, inv_var_of, chi_of]
  have h1 : (0 : ℝ) ≤ (|nf * (v - mean) / e| / alpha) ^ beta :=
    Real.rpow_nonneg (by positivity) _
  have h2 : (0 : ℝ) ≤ 1 / e ^ 2 := by positivity
  exact div_nonneg h2 (by linarith)

/-- The reweighting factor is strictly positive when additionally the
error value is nonzero. -/
theorem weight_of_pos (nf alpha beta mean v e : ℝ) (ha : 0 < alpha) (he : e ≠ 0) :
    0 < weight_of nf alpha beta mean v e := by
  rw [weight_of, inv_var_of, chi_of]
  have h1 : (0 : ℝ) ≤ (|nf * (v - mean) / e| / alpha) ^ beta :=
    Real.rpow_nonneg (by positivity) _
  exact div_pos (by positivity) (by linarith)

/-- The loop weights have nonnegative sum when `alpha > 0`. -/
theorem weights_sum_nonneg (nf alpha beta mean : ℝ) (ha : 0 < alpha) :
    ∀ values errors : List ℝ,
      0 ≤ (List.zipWith (fun v e => weight_of nf alpha beta mean v e) values errors).sum
  | [], _ => by simp
  | _ :: _, [] => by simp
  | v :: vt, e :: et => by
    simp only [List.zipWith, List.sum_cons]
    have h1 := weights_sum_nonneg nf alpha beta mean ha vt et
    have h2 := weight_of_nonneg nf alpha beta mean v e ha
    linarith

/-- The loop weights have strictly positive sum on a nonempty input
with matching lengths and nonzero errors. -/
theorem weights_sum_pos (nf alpha beta mean : ℝ) (ha : 0 < alpha) :
    ∀ values errors : List ℝ, values ≠ [] → errors.length = values.length →
      (∀ e ∈ errors, e ≠ 0) →
      0 < (List.zipWith (fun v e => weight_of nf alpha beta mean v e) values errors).sum
  | [], _, hv, _, _ => absurd rfl hv
  | _ :: vt, [], _, hlen, _ => by simp at hlen
  | v :: vt, e :: et, _, _, herr => by
    simp only [List.zipWith, List.sum_cons]
    have h1 := weights_sum_nonneg nf alpha beta mean ha vt et
    have h2 := weight_of_pos nf alpha beta mean v e ha (herr e (by simp))
    linarith

/-- The initial inverse-variance weights have strictly positive sum on
a nonempty list of nonzero errors. -/
theorem inv_var_sum_nonneg : ∀ errors : List ℝ, 0 ≤ (errors.map inv_var_of).sum
  | [] => by simp
  | e :: et => by
    simp only [List.map_cons, List.sum_cons]
    have h1 := inv_var_sum_nonneg et
    have h2 : (0 : ℝ) ≤ inv_var_of e := by rw [inv_var_of]; positivity
    linarith

/-- Strict version of `inv_var_sum_nonneg`. -/
theorem inv_var_sum_pos : ∀ errors : List ℝ, errors ≠ [] → (∀ e ∈ errors, e ≠ 0) →
      0 < (errors.map inv_var_of).sum
  | [], hne, _ => absurd rfl hne
  | e :: et, _, herr => by
    simp only [List.map_cons, List.sum_cons]
    have h1 := inv_var_sum_nonneg et
    have h2 : (0 : ℝ) < inv_var_of e := by
      rw [inv_var_of]
      have : e ≠ 0 := herr e (by simp)
      positivity
    linarith

/-- On a valid input the loop always returns, with a pass count bounded
by the remaining budget. -/
theorem stetsonLoop_ok_le (values errors : List ℝ) (nf alpha beta tol : ℝ)
    (ha : 0 < alpha) (hv : values ≠ []) (hlen : errors.length = values.length)
    (herr : ∀ e ∈ errors, e ≠ 0) :
    ∀ (fuel : ℕ) (mean : ℝ), ∃ μ c,
      stetsonLoop values errors nf alpha beta tol mean fuel = .ok (μ, c) ∧ c ≤ fuel
  | 0, mean => ⟨mean, 0, stetsonLoop_zero _ _ _ _ _ _ _, le_refl 0⟩
  | fuel + 1, mean => by
    have hspos := weights_sum_pos nf alpha beta mean ha values errors hv hlen herr
    have hstep : stetsonStep values errors nf alpha beta mean =
        .ok ((List.zipWith (fun w v => w * v)
              (List.zipWith (fun v e => weight_of nf alpha beta mean v e) values errors)
              values).sum /
            (List.zipWith (fun v e => weight_of nf alpha beta mean v e) values errors).sum) := by
      rw [stetsonStep, npAverage, if_neg (ne_of_gt hspos)]
    set tmp := (List.zipWith (fun w v => w * v)
        (List.zipWith (fun v e => weight_of nf alpha beta mean v e) values errors)
        values).sum /
      (List.zipWith (fun v e => weight_of nf alpha beta mean v e) values errors).sum with htmp
    rw [stetsonLoop_succ_ok _ _ _ _ _ _ _ _ _ hstep]
    by_cases hc : converged |tmp - mean| tmp tol
    · exact ⟨tmp, 1, by rw [if_pos hc], by omega⟩
    · obtain ⟨μ, c, hl, hcle⟩ := stetsonLoop_ok_le values errors nf alpha beta tol
        ha hv hlen herr fuel tmp
      exact ⟨μ, c + 1, by rw [if_neg hc, hl]; rfl, by omega⟩

/-- On any valid input the estimator initialises, loops at most
`n_iter` passes, and returns the final loop mean (shared helper). -/
theorem stetson_mean_returns (values errors : List ℝ) (n_iter : ℕ) (tol : ℝ)
    (hN : 2 ≤ values.length) (hlen : errors.length = values.length)
    (herr : ∀ e ∈ errors, 0 < e) :
    ∃ m0 μ c,
      npAverage values (errors.map inv_var_of) = .ok m0 ∧
      stetsonLoop values errors
        (Real.sqrt ((values.length : ℝ) / ((values.length : ℝ) - 1))) 2 2 tol m0 n_iter
        = .ok (μ, c) ∧
      c ≤ n_iter ∧
      _stetson_mean values errors none 2 2 n_iter tol = .ok μ := by
  have hvne : values ≠ [] := by
    intro h
    rw [h] at hN
    simp at hN
  have hene : errors ≠ [] := by
    intro h
    rw [h] at hlen
    simp at hlen
    omega
  have herr' : ∀ e ∈ errors, e ≠ 0 := fun e he => ne_of_gt (herr e he)
  have hivpos := inv_var_sum_pos errors hene herr'
  have hinit : npAverage values (errors.map inv_var_of) =
      .ok ((List.zipWith (fun w v => w * v) (errors.map inv_var_of) values).sum /
        (errors.map inv_var_of).sum) := by
    rw [npAverage, if_neg (ne_of_gt hivpos)]
  obtain ⟨μ, c, hloop, hcle⟩ := stetsonLoop_ok_le values errors
    (Real.sqrt ((values.length : ℝ) / ((values.length : ℝ) - 1))) 2 2 tol
    (by norm_num) hvne hlen herr' n_iter
    ((List.zipWith (fun w v => w * v) (errors.map inv_var_of) values).sum /
      (errors.map inv_var_of).sum)
  refine ⟨_, μ, c, hinit, hloop, hcle, ?_⟩
  rw [_stetson_mean]
  rw [if_neg (by omega)]
  simp only [hinit]
  rw [hloop]
  rfl

/-- Claim C5: on any valid input (`N ≥ 2`, matching lengths, strictly
positive errors), `_stetson_mean` performs at most `n_iter` reweighting
passes and then returns the current mean estimate; exhausting the
budget without meeting the tolerance is not an error — the function
still returns `.ok` with the last estimate (default `alpha = beta = 2`,
arbitrary budget and tolerance). -/
theorem C5_iteration_bound (values errors : List ℝ) (n_iter : ℕ) (tol : ℝ)
    (hN : 2 ≤ values.length) (hlen : errors.length = values.length)
    (herr : ∀ e ∈ errors, 0 < e) :
    ∃ m0 μ c,
      npAverage values (errors.map inv_var_of) = .ok m0 ∧
      stetsonLoop values errors
        (Real.sqrt ((values.length : ℝ) / ((values.length : ℝ) - 1))) 2 2 tol m0 n_iter
        = .ok (μ, c) ∧
      c ≤ n_iter ∧
      _stetson_mean values errors none 2 2 n_iter tol = .ok μ :=
  stetson_mean_returns values errors n_iter tol hN hlen herr

/-- Witness for `C5_iteration_bound` at `values=[1,2,3]`,
`errors=[1,1,1]`, the default budget 20 and tolerance `1e-6`. -/
theorem C5_iteration_bound_witness :
    ∃ m0 μ c,
      npAverage [(1 : ℝ), 2, 3] ([(1 : ℝ), 1, 1].map inv_var_of) = .ok m0 ∧
      stetsonLoop [(1 : ℝ), 2, 3] [(1 : ℝ), 1, 1]
        (Real.sqrt (((3 : ℕ) : ℝ) / (((3 : ℕ) : ℝ) - 1))) 2 2 (1e-6) m0 20
        = .ok (μ, c) ∧
      c ≤ 20 ∧
      _stetson_mean [(1 : ℝ), 2, 3] [(1 : ℝ), 1, 1] none 2 2 20 (1e-6) = .ok μ :=
  C5_iteration_bound [(1 : ℝ), 2, 3] [(1 : ℝ), 1, 1] 20 (1e-6) (by simp)
    (by simp) (by intro e he; simp at he; simp [he])

/-- Claim C6: if a reweighting pass produces the mean estimate exactly
0, the early-termination check is treated as not converged — the loop
does not break (and does not fail): it simply continues iterating from
the zero mean.  This mirrors the IEEE behaviour of
`diff / mean < tol and diff < tol` at `mean == 0.0`, where the quotient
is `+inf` or `NaN` and the comparison is false. -/
theorem C6_zero_mean_continues (values errors : List ℝ)
    (nf alpha beta tol mean : ℝ) (fuel : ℕ)
    (h : stetsonStep values errors nf alpha beta mean = .ok 0) :
    stetsonLoop values errors nf alpha beta tol mean (fuel + 1) =
      (stetsonLoop values errors nf alpha beta tol 0 fuel).map
        (fun p => (p.1, p.2 + 1)) := by
  rw [stetsonLoop_succ_ok _ _ _ _ _ _ _ _ _ h]
  rw [if_neg (fun hc => hc.1 rfl)]

/-- Witness for `C6_zero_mean_continues`: on `values=[0,0]`,
`errors=[1,1]` the pass from mean 0 returns mean 0 again, and the loop
continues instead of terminating early. -/
theorem C6_zero_mean_continues_witness :
    stetsonLoop [(0 : ℝ), 0] [(1 : ℝ), 1] 1 2 2 (1e-6) 0 1 =
      (stetsonLoop [(0 : ℝ), 0] [(1 : ℝ), 1] 1 2 2 (1e-6) 0 0).map
        (fun p => (p.1, p.2 + 1)) :=
  C6_zero_mean_continues [(0 : ℝ), 0] [(1 : ℝ), 1] 1 2 2 (1e-6) 0 0
    (by have := stetsonStep_replicate 2 (0 : ℝ) 1 1 (by norm_num) (by norm_num)
        simpa [List.replicate] using this)

/-- Claim C10: when the (new) mean estimate is strictly negative and
the absolute change `diff` is positive, the relative-change condition
`diff / mean < tol` holds vacuously (the quotient is negative), so the
early-termination check of `_stetson_mean`'s loop reduces to the
absolute condition `diff < tol` alone. -/
theorem C10_negative_mean_abs_tol (diff mean tol : ℝ)
    (hm : mean < 0) (hd : 0 < diff) :
    converged diff mean tol ↔ diff < tol := by
  rw [converged]
  constructor
  · rintro ⟨-, -, h⟩
    exact h
  · intro h
    refine ⟨ne_of_lt hm, ?_, h⟩
    have h0 : diff / mean < 0 := div_neg_of_pos_of_neg hd hm
    linarith [h0, h, hd]

/-- Witness for `C10_negative_mean_abs_tol` at `diff = 1/2`,
`mean = −1`, `tol = 1`. -/
theorem C10_negative_mean_abs_tol_witness :
    converged (1 / 2) (-1) 1 ↔ (1 / 2 : ℝ) < 1 :=
  C10_negative_mean_abs_tol (1 / 2) (-1) 1 (by norm_num) (by norm_num)

/-- `zipWith` over two maps of one list is a single `map`. -/
theorem zipWith_map_same {γ : Type} (f : ℝ → ℝ → γ) (g h : ℝ × ℝ → ℝ) (l : List (ℝ × ℝ)) :
    List.zipWith f (l.map g) (l.map h) = l.map (fun p => f (g p) (h p)) := by
  induction l with
  | nil => rfl
  | cons p t ih => simp [ih]

/-- `np.average` of the first components against weights computed
pointwise from the pairs depends only on the multiset of pairs. -/
theorem npAverage_perm (l l' : List (ℝ × ℝ)) (hp : l.Perm l') (g : ℝ × ℝ → ℝ) :
    npAverage (l.map Prod.fst) (l.map g) = npAverage (l'.map Prod.fst) (l'.map g) := by
  simp only [npAverage]
  have hsum : (l.map g).sum = (l'.map g).sum := (hp.map g).sum_eq
  have hnum : (List.zipWith (fun w v => w * v) (l.map g) (l.map Prod.fst)).sum =
      (List.zipWith (fun w v => w * v) (l'.map g) (l'.map Prod.fst)).sum := by
    rw [zipWith_map_same, zipWith_map_same]
    exact (hp.map _).sum_eq
  rw [hsum, hnum]

/-- A reweighting pass is invariant under permuting the (value, error)
pairs. -/
theorem stetsonStep_perm (l l' : List (ℝ × ℝ)) (hp : l.Perm l') (nf alpha beta mean : ℝ) :
    stetsonStep (l.map Prod.fst) (l.map Prod.snd) nf alpha beta mean =
    stetsonStep (l'.map Prod.fst) (l'.map Prod.snd) nf alpha beta mean := by
  rw [stetsonStep, stetsonStep, zipWith_map_pair, zipWith_map_pair]
  exact npAverage_perm l l' hp (fun p => weight_of nf alpha beta mean p.1 p.2)

/-- The whole clipping loop is invariant under permuting the
(value, error) pairs. -/
theorem stetsonLoop_perm (l l' : List (ℝ × ℝ)) (hp : l.Perm l') (nf alpha beta tol : ℝ) :
    ∀ (fuel : ℕ) (mean : ℝ),
      stetsonLoop (l.map Prod.fst) (l.map Prod.snd) nf alpha beta tol mean fuel =
      stetsonLoop (l'.map Prod.fst) (l'.map Prod.snd) nf alpha beta tol mean fuel
  | 0, mean => by rw [stetsonLoop_zero, stetsonLoop_zero]
  | fuel + 1, mean => by
    rw [stetsonLoop_succ, stetsonLoop_succ, stetsonStep_perm l l' hp nf alpha beta mean]
    cases h : stetsonStep (l'.map Prod.fst) (l'.map Prod.snd) nf alpha beta mean with
    | error e => rfl
    | ok tmp =>
      simp only
      rw [stetsonLoop_perm l l' hp nf alpha beta tol fuel tmp]

/-- Claim C8: on a valid input (`N ≥ 2`, strictly positive errors),
applying one and the same permutation to both the values and the errors
leaves the result of `_stetson_mean` unchanged.  The input is given as
a list of (value, error) pairs and the permutation as `List.Perm`. -/
theorem C8_order_invariance (l l' : List (ℝ × ℝ)) (hp : l.Perm l')
    (hN : 2 ≤ l.length) (herr : ∀ p ∈ l, 0 < p.2) :
    _stetson_mean (l.map Prod.fst) (l.map Prod.snd) none 2 2 20 (1e-6) =
    _stetson_mean (l'.map Prod.fst) (l'.map Prod.snd) none 2 2 20 (1e-6) := by
  rw [_stetson_mean, _stetson_mean]
  simp only [List.length_map]
  rw [hp.length_eq]
  rw [List.map_map, List.map_map]
  rw [npAverage_perm l l' hp (inv_var_of ∘ Prod.snd)]
  cases h : npAverage (l'.map Prod.fst) (l'.map (inv_var_of ∘ Prod.snd)) with
  | error e => rfl
  | ok m0 =>
    simp only
    rw [stetsonLoop_perm l l' hp _ 2 2 (1e-6) 20 m0]

/-- Witness for `C8_order_invariance` on the pairs
`[(1,1),(2,1)]` and their swap `[(2,1),(1,1)]`. -/
theorem C8_order_invariance_witness :
    _stetson_mean ([((1 : ℝ), (1 : ℝ)), (2, 1)].map Prod.fst)
        ([((1 : ℝ), (1 : ℝ)), (2, 1)].map Prod.snd) none 2 2 20 (1e-6) =
    _stetson_mean ([((2 : ℝ), (1 : ℝ)), (1, 1)].map Prod.fst)
        ([((2 : ℝ), (1 : ℝ)), (1, 1)].map Prod.snd) none 2 2 20 (1e-6) :=
  C8_order_invariance [((1 : ℝ), (1 : ℝ)), (2, 1)] [((2 : ℝ), (1 : ℝ)), (1, 1)]
    (List.Perm.swap _ _ _) (by simp)
    (by rintro p hp
        simp at hp
        rcases hp with h | h <;> rw [h] <;> norm_num)

/-- Claim C9: `stetson_J` and `_stetson_mean` leave the `timeseries`
object untouched — the bodies contain no attribute assignment (`data`,
`colmap`, `meta` are all unchanged) — and carry no state between calls:
a repeated call on the object returned by the first call yields the
same value.  Input lists are immutable values in this model; the source
performs no in-place array operation on them (all numpy operations
allocate fresh arrays). -/
theorem C9_no_mutation (t : timeseries) (fluxes errors : List ℝ)
    (mean : Option ℝ) (alpha beta : ℝ) (n_iter : ℕ) (tol : ℝ) :
    (stetson_J_m t fluxes errors).1 = t ∧
    (_stetson_mean_m t fluxes errors mean alpha beta n_iter tol).1 = t ∧
    (stetson_J_m ((stetson_J_m t fluxes errors).1) fluxes errors).2 =
      (stetson_J_m t fluxes errors).2 :=
  ⟨rfl, rfl, rfl⟩

/-- Claim C3 (code bug): `stetson_J_multi` does NOT read the columns
identified by the configured column mapping.  On a timeseries whose
`colmap` maps flux → "f" and flux_err → "e" (columns which the `flux` /
`flux_err` accessors read successfully), `stetson_J_multi` raises
`KeyError('psFlux')` because it reads the hardcoded column names
`"psFlux"` / `"psFluxErr"` instead of the configured mapping. -/
theorem C3_hardcoded_columns :
    stetson_J_multi
        ⟨[⟨"g", [("f", 1), ("e", 1)]⟩, ⟨"g", [("f", 2), ("e", 1)]⟩],
          none, some "t", some "f", some "e"⟩
      = .error (.keyError "psFlux") ∧
    timeseries.flux
        ⟨[⟨"g", [("f", 1), ("e", 1)]⟩, ⟨"g", [("f", 2), ("e", 1)]⟩],
          none, some "t", some "f", some "e"⟩
      = .ok [1, 2] ∧
    timeseries.flux_err
        ⟨[⟨"g", [("f", 1), ("e", 1)]⟩, ⟨"g", [("f", 2), ("e", 1)]⟩],
          none, some "t", some "f", some "e"⟩
      = .ok (some [1, 1]) := by
  exact ⟨rfl, rfl, rfl⟩

/-- On any valid single-band input `stetson_J` returns a value. -/
theorem stetson_J_ok (fluxes errors : List ℝ) (hN : 2 ≤ fluxes.length)
    (hlen : errors.length = fluxes.length) (herr : ∀ e ∈ errors, 0 < e) :
    ∃ j, stetson_J fluxes errors = .ok j := by
  obtain ⟨m0, μ, c, hinit, hloop, hle, hmean⟩ :=
    stetson_mean_returns fluxes errors 20 (1e-6) hN hlen herr
  rw [stetson_J]
  simp only [hmean]
  rw [if_neg (by omega : ¬ (fluxes.length = 1))]
  exact ⟨_, rfl⟩

/-- `mapM` over `Except` succeeds when every element succeeds, and the
first components of the produced pairs are the inputs themselves. -/
theorem mapM_ok_of_perBand (f : String → Except PyErr (String × ℝ)) :
    ∀ l : List String, (∀ b ∈ l, ∃ j, f b = .ok (b, j)) →
      ∃ m, l.mapM f = .ok m ∧ m.map Prod.fst = l
  | [], _ => ⟨[], rfl, rfl⟩
  | b :: bt, h => by
    obtain ⟨j, hj⟩ := h b (by simp)
    obtain ⟨m, hm, hmap⟩ := mapM_ok_of_perBand f bt (fun b' hb' => h b' (by simp [hb']))
    refine ⟨(b, j) :: m, ?_, by simp [hmap]⟩
    rw [List.mapM_cons, hj, hm]
    rfl

/-- The band list produced by `np.unique` is sorted and duplicate
free. -/
theorem unqBand_sorted_nodup (t : timeseries) :
    List.Sorted (· < ·) (unqBand t) := by
  rw [unqBand]
  exact (List.sorted_insertionSort (· ≤ ·) _).lt_of_le
    ((List.perm_insertionSort (· ≤ ·) _).nodup_iff.mpr (List.nodup_dedup _))

/-- Membership in `np.unique(self.band)` is membership among the band
labels of the data. -/
theorem unqBand_mem (t : timeseries) (b : String) :
    b ∈ unqBand t ↔ b ∈ t.data.map TSRow.band := by
  rw [unqBand]
  rw [(List.perm_insertionSort (· ≤ ·) _).mem_iff]
  exact List.mem_dedup

/-- Claim C7: on a multi-band input whose per-band data is valid (each
band has the `psFlux`/`psFluxErr` columns, at least 2 observations and
strictly positive errors), `stetson_J_multi` returns a mapping whose
keys are exactly the distinct band labels present in the input — one
entry per distinct band, no extras, no omissions — processed in
deterministic sorted-ascending order (`np.unique` sorts). -/
theorem C7_keys_sorted_distinct (t : timeseries)
    (hvalid : ∀ b ∈ unqBand t, ∃ fl er,
      colValues (t.data.filter (fun r => r.band == b)) "psFlux" = .ok fl ∧
      colValues (t.data.filter (fun r => r.band == b)) "psFluxErr" = .ok er ∧
      2 ≤ fl.length ∧ er.length = fl.length ∧ ∀ e ∈ er, 0 < e) :
    ∃ m, stetson_J_multi t = .ok m ∧
      m.map Prod.fst = unqBand t ∧
      List.Sorted (· < ·) (m.map Prod.fst) ∧
      ∀ b, b ∈ m.map Prod.fst ↔ b ∈ t.data.map TSRow.band := by
  rw [stetson_J_multi]
  have hper : ∀ b ∈ unqBand t, ∃ j,
      (fun band =>
        match colValues (t.data.filter (fun r => r.band == band)) "psFlux" with
        | .error e => (.error e : Except PyErr (String × ℝ))
        | .ok fluxes =>
          match colValues (t.data.filter (fun r => r.band == band)) "psFluxErr" with
          | .error e => .error e
          | .ok errors =>
            match stetson_J fluxes errors with
            | .error e => .error e
            | .ok j => .ok (band, j)) b = .ok (b, j) := by
    intro b hb
    obtain ⟨fl, er, hfl, her, hN, hlen, herr⟩ := hvalid b hb
    obtain ⟨j, hj⟩ := stetson_J_ok fl er hN hlen herr
    exact ⟨j, by simp only [hfl, her, hj]⟩
  obtain ⟨m, hm, hmap⟩ := mapM_ok_of_perBand _ (unqBand t) hper
  refine ⟨m, hm, hmap, ?_, ?_⟩
  · rw [hmap]
    exact unqBand_sorted_nodup t
  · intro b
    rw [hmap]
    exact unqBand_mem t b

/-- Witness for `C7_keys_sorted_distinct` on a concrete two-band
timeseries (bands "g" and "r", two observations each). -/
theorem C7_keys_sorted_distinct_witness :
    ∃ m, stetson_J_multi
        ⟨[⟨"g", [("psFlux", 1), ("psFluxErr", 1)]⟩,
          ⟨"g", [("psFlux", 2), ("psFluxErr", 1)]⟩,
          ⟨"r", [("psFlux", 3), ("psFluxErr", 1)]⟩,
          ⟨"r", [("psFlux", 4), ("psFluxErr", 1)]⟩],
          none, some "t", some "psFlux", some "psFluxErr"⟩ = .ok m ∧
      m.map Prod.fst = unqBand
        ⟨[⟨"g", [("psFlux", 1), ("psFluxErr", 1)]⟩,
          ⟨"g", [("psFlux", 2), ("psFluxErr", 1)]⟩,
          ⟨"r", [("psFlux", 3), ("psFluxErr", 1)]⟩,
          ⟨"r", [("psFlux", 4), ("psFluxErr", 1)]⟩],
          none, some "t", some "psFlux", some "psFluxErr"⟩ ∧
      List.Sorted (· < ·) (m.map Prod.fst) ∧
      ∀ b, b ∈ m.map Prod.fst ↔ b ∈
        ([⟨"g", [("psFlux", 1), ("psFluxErr", 1)]⟩,
          ⟨"g", [("psFlux", 2), ("psFluxErr", 1)]⟩,
          ⟨"r", [("psFlux", 3), ("psFluxErr", 1)]⟩,
          ⟨"r", [("psFlux", 4), ("psFluxErr", 1)]⟩] : List TSRow).map TSRow.band :=
  C7_keys_sorted_distinct
    ⟨[⟨"g", [("psFlux", 1), ("psFluxErr", 1)]⟩,
      ⟨"g", [("psFlux", 2), ("psFluxErr", 1)]⟩,
      ⟨"r", [("psFlux", 3), ("psFluxErr", 1)]⟩,
      ⟨"r", [("psFlux", 4), ("psFluxErr", 1)]⟩],
      none, some "t", some "psFlux", some "psFluxErr"⟩
    (by
      intro b hb
      rw [unqBand_mem] at hb
      simp only [List.map_cons, List.map_nil, List.mem_cons, List.not_mem_nil,
        or_false] at hb
      rcases hb with rfl | rfl | rfl | rfl
      · exact ⟨[1, 2], [1, 1], rfl, rfl, by norm_num, by norm_num,
          by intro e he; simp at he; norm_num [he]⟩
      · exact ⟨[1, 2], [1, 1], rfl, rfl, by norm_num, by norm_num,
          by intro e he; simp at he; norm_num [he]⟩
      · exact ⟨[3, 4], [1, 1], rfl, rfl, by norm_num, by norm_num,
          by intro e he; simp at he; norm_num [he]⟩
      · exact ⟨[3, 4], [1, 1], rfl, rfl, by norm_num, by norm_num,
          by intro e he; simp at he; norm_num [he]⟩)
